import Mathlib

/-!
Verification development for `wayback_archiver.py`, a single-file tool that
bulk-downloads archived pages: it loads a JSON array of
`[original_url, timestamp, ...]` rows, builds wayback URLs, fetches each one
sequentially, and writes the response body under a path derived from the
original URL.

Strings are modelled as `List Char` (`Str`).  The Python standard-library
helpers the script relies on (`str.split`, `str.replace`, `str.strip`,
`str.lstrip`, `urllib.parse.urlparse` / `unquote`, `os.path.join`) are
embedded faithfully below; network and file-system effects are modelled by
explicit oracles and an explicit `Disk` state.
-/

set_option maxRecDepth 20000

abbrev Str := List Char

/-- Python `s.split(sep)` for a single-character separator `sep`:
`"".split('/') = [""]`, `"a//b".split('/') = ["a", "", "b"]`. -/
def splitOnChar (sep : Char) : Str → List Str
  | [] => [[]]
  | c :: rest =>
    if c = sep then [] :: splitOnChar sep rest
    else
      match splitOnChar sep rest with
      | [] => [[c]]
      | h :: t => (c :: h) :: t

/-- Python `s.replace('/', '_')` (single-character pattern): a character map. -/
def replaceChar (a b : Char) (cs : Str) : Str :=
  cs.map (fun c => if c = a then b else c)

/-- Python `s.strip('_')`: drop the character from both ends. -/
def stripEdges (c : Char) (cs : Str) : Str :=
  ((cs.dropWhile (fun x => x == c)).reverse.dropWhile (fun x => x == c)).reverse

/-- Python `s.lstrip('/')`: drop the character from the left end. -/
def lstripChar (c : Char) (cs : Str) : Str :=
  cs.dropWhile (fun x => x == c)

/-- Hexadecimal digit value, as accepted by percent-escapes. -/
def hexVal (c : Char) : Option Nat :=
  if '0' ≤ c ∧ c ≤ '9' then some (c.toNat - '0'.toNat)
  else if 'a' ≤ c ∧ c ≤ 'f' then some (c.toNat - 'a'.toNat + 10)
  else if 'A' ≤ c ∧ c ≤ 'F' then some (c.toNat - 'A'.toNat + 10)
  else none

/-- One item of Python `unquote` after a `%`: if it starts with two hex
digits they are decoded, otherwise the `%` is kept verbatim. -/
def unquoteItem (item : Str) : Str :=
  match item with
  | a :: b :: rest =>
    match hexVal a, hexVal b with
    | some x, some y => Char.ofNat (16 * x + y) :: rest
    | _, _ => '%' :: item
  | _ => '%' :: item

/-- Python `urllib.parse.unquote`, following CPython's algorithm: split on
`%`, keep the first piece verbatim, and decode the leading `%XY` escape of
every later piece.  (CPython decodes escaped byte sequences as UTF-8; for
ASCII escapes — and for every string in this development, none of which
contains `%` at all — the two agree.) -/
def unquoteChars (cs : Str) : Str :=
  match splitOnChar '%' cs with
  | [] => []
  | first :: items => first ++ (items.map unquoteItem).flatten

/-- Characters allowed in a URL scheme after the first (letters, digits,
`+`, `-`, `.`), per CPython `urllib.parse.scheme_chars`. -/
def schemeChar (c : Char) : Bool :=
  c.isAlphanum || c == '+' || c == '-' || c == '.'

/-- Helper for `splitScheme`: scan the characters after the first one; on the
first `:` the scheme ends and the remainder is returned, a character outside
`scheme_chars` before any `:` means the string has no scheme. -/
def splitSchemeAux : Str → Option Str
  | [] => none
  | c :: rest =>
    if c = ':' then some rest
    else if schemeChar c then splitSchemeAux rest else none

/-- Scheme removal of CPython `urlsplit`: if the text before the first `:`
starts with an ASCII letter and consists of scheme characters, everything up
to and including that `:` is removed; otherwise the string is unchanged. -/
def splitScheme : Str → Str
  | [] => []
  | c :: rest =>
    if c.isAlpha then
      match splitSchemeAux rest with
      | some r => r
      | none => c :: rest
    else c :: rest

/-- Netloc removal of CPython `urlsplit`: after the scheme, a leading `//`
introduces the network location, which extends to the next `/`, `?` or `#`. -/
def removeNetloc : Str → Str
  | '/' :: '/' :: rest =>
    rest.dropWhile (fun c => !(c == '/' || c == '?' || c == '#'))
  | cs => cs

/-- The `.path` component of Python `urllib.parse.urlparse`: strip the
scheme, strip the netloc, then cut at the first `#` (fragment) and the first
`?` (query).  (The params split on `;` that `urlparse` additionally performs
is omitted: no string in this development contains `;`.) -/
def urlparsePath (cs : Str) : Str :=
  ((removeNetloc (splitScheme cs)).takeWhile (fun c => c != '#')).takeWhile
    (fun c => c != '?')

/-- POSIX `os.path.join` with two arguments. -/
def osPathJoin (a b : Str) : Str :=
  if b.head? = some '/' then b
  else if a = [] ∨ a.getLast? = some '/' then a ++ b
  else a ++ '/' :: b

/-! ### File-system, network and main-loop model -/

/-- On-disk state: the set of directories created so far and the written
files (`path ↦ content`), both only ever appended to / overwritten. -/
structure Disk where
  dirs : List Str
  files : List (Str × Str)
deriving DecidableEq

/-- `os.makedirs(d, exist_ok=True)`: record the directory (one entry stands
for the directory together with its parents). -/
def insertDir (d : Str) (dirs : List Str) : List Str :=
  if d ∈ dirs then dirs else dirs ++ [d]

/-- `open(name, 'w').write(content)` on success: overwrite any previous
content at `name`. -/
def setFile (name content : Str) (files : List (Str × Str)) : List (Str × Str) :=
  files.filter (fun p => p.1 ≠ name) ++ [(name, content)]

/-- The filename stem and target derivation of `download_page`
(`wayback_archiver.py` lines 20–35): element 5 of the wayback URL split on
`/` is taken as the original URL, it is percent-decoded, its `urlparse`
path is extracted, `index` is appended when it ends in `/`, separators
become underscores and edge underscores are stripped.  `none` models the
`IndexError` of `split('/')[5]` on a short URL (caught by the handler). -/
def derivedFilename (wayback_url : Str) : Option Str :=
  ((splitOnChar '/' wayback_url).get? 5).map (fun seg =>
    let original_url := unquoteChars seg
    let path := urlparsePath original_url
    let path2 := if path.getLast? = some '/' then path ++ "index".toList else path
    stripEdges '_' (replaceChar '/' '_' path2))

/-- `download_page(wayback_url, output_dir, headers)` (lines 14–50).
`fetch` models `requests.get` followed by `raise_for_status`: `Except.error`
covers transport errors, timeouts and non-2xx statuses.  `writeOk` models
whether the file write succeeds (the write is treated as atomic).  The
directory is created first, then the target filename is derived, then the
fetch runs, then the file is written; any failure is caught and yields
`none`. -/
def download_page (fetch : Str → Except Str Str) (writeOk : Str → Bool)
    (wayback_url output_dir : Str) (disk : Disk) : Option Str × Disk :=
  let disk1 : Disk := ⟨insertDir output_dir disk.dirs, disk.files⟩
  match derivedFilename wayback_url with
  | none => (none, disk1)
  | some filename =>
    let html_file := osPathJoin output_dir (filename ++ ".html".toList)
    match fetch wayback_url with
    | .error _ => (none, disk1)
    | .ok text =>
      if writeOk html_file then
        (some html_file, ⟨disk1.dirs, setFile html_file text disk1.files⟩)
      else (none, disk1)

/-- One input row: a JSON array of strings. -/
abbrev Row := List Str

/-- The literal header row `["original", "timestamp", "endkey"]`. -/
def headerRow : Row := ["original".toList, "timestamp".toList, "endkey".toList]

/-- Header skipping (lines 81–85): drop the first row exactly when the data
is non-empty and that row equals the header triple. -/
def skipHeader (data : List Row) : List Row :=
  match data with
  | [] => []
  | r :: rest => if r = headerRow then rest else r :: rest

/-- An entry of `wayback_urls` (lines 94–97). -/
structure UrlInfo where
  original_url : Str
  wayback_url : Str
deriving DecidableEq

/-- `f"https://web.archive.org/web/{timestamp}/{original_url}"` (line 93). -/
def mkWaybackUrl (timestamp original_url : Str) : Str :=
  "https://web.archive.org/web/".toList ++ timestamp ++ '/' :: original_url

/-- One iteration of the conversion loop (lines 89–97): a row with at least
two fields appends one `UrlInfo` built from fields 0 and 1; a shorter row
leaves the accumulator unchanged. -/
def entryStep (acc : List UrlInfo) (entry : Row) : List UrlInfo :=
  match entry with
  | a :: b :: _ => acc ++ [⟨a, mkWaybackUrl b a⟩]
  | _ => acc

/-- The `UrlInfo` a single row contributes, if any. -/
def rowEntry : Row → Option UrlInfo
  | a :: b :: _ => some ⟨a, mkWaybackUrl b a⟩
  | _ => none

/-- The conversion loop (lines 88–97): rows with at least two fields append
one `UrlInfo` built from fields 0 and 1; shorter rows are skipped. -/
def makeEntries (rows : List Row) : List UrlInfo :=
  rows.foldl entryStep []

/-- Python slicing `l[:n]` for an integer `n` (negative `n` counts from the
end). -/
def pySliceTo (l : List α) (n : Int) : List α :=
  l.take (if 0 ≤ n then n.toNat else ((l.length : Int) + n).toNat)

/-- The limit step (lines 105–107): `if args.limit and args.limit < len(...)`
— `None` and `0` are falsy, so truncation happens only for a non-zero limit
smaller than the entry count. -/
def applyLimit (limit : Option Int) (l : List α) : List α :=
  match limit with
  | none => l
  | some n => if n ≠ 0 ∧ n < (l.length : Int) then pySliceTo l n else l

/-- Observable steps of the main loop: a `download_page` invocation on a
wayback URL (the fetch boundary around the single network call), and a
`time.sleep(delay)`.  The delay is carried as an exact rational. -/
inductive Event where
  | attempt (wayback_url : Str)
  | sleepFor (delay : ℚ)
deriving DecidableEq

/-- The subdirectory for an entry (lines 116–118):
`os.path.join(output, parsed.path.lstrip('/').replace('/', '_'))`. -/
def pathDirFor (output original_url : Str) : Str :=
  osPathJoin output (replaceChar '/' '_' (lstripChar '/' (urlparsePath original_url)))

/-- The download loop body (lines 112–126), iterated over the (limited)
entries: derive the per-entry directory, call `download_page`, then sleep
the configured delay — unconditionally, success or failure alike. -/
def processEntries (fetch : Str → Except Str Str) (writeOk : Str → Bool)
    (delay : ℚ) (output : Str) :
    List UrlInfo → Disk → List Event × List (Option Str) × Disk
  | [], disk => ([], [], disk)
  | e :: rest, disk =>
    let path_dir := pathDirFor output e.original_url
    let r := download_page fetch writeOk e.wayback_url path_dir disk
    let t := processEntries fetch writeOk delay output rest r.2
    (Event.attempt e.wayback_url :: Event.sleepFor delay :: t.1, r.1 :: t.2.1, t.2.2)

/-- Outcome of one run of `main` after the input file has been parsed. -/
structure RunOutcome where
  /-- `True` when the run stopped at `logger.error("No valid URLs ...")`. -/
  fatalNoUrls : Bool
  events : List Event
  results : List (Option Str)
  disk : Disk
deriving DecidableEq

/-- `main` after JSON parsing (lines 81–128): skip the header, build the
entries, stop fatally when none remain, otherwise apply the limit and run
the download loop. -/
def runMain (fetch : Str → Except Str Str) (writeOk : Str → Bool)
    (delay : ℚ) (output : Str) (limit : Option Int) (data : List Row)
    (disk : Disk) : RunOutcome :=
  let wayback_urls := makeEntries (skipHeader data)
  if wayback_urls = [] then ⟨true, [], [], disk⟩
  else
    let limited := applyLimit limit wayback_urls
    let t := processEntries fetch writeOk delay output limited disk
    ⟨false, t.1, t.2.1, t.2.2⟩

/-- The wayback URLs on which `download_page` was invoked, in order. -/
def attempts (evs : List Event) : List Str :=
  evs.filterMap (fun e =>
    match e with
    | .attempt u => some u
    | _ => none)

/-- How many sleeps of duration `d` a run issued. -/
def sleepsOf (d : ℚ) (evs : List Event) : Nat :=
  (evs.filter (fun e => e = Event.sleepFor d)).length

/-! ### Helper lemmas -/

theorem splitOnChar_no_sep (sep : Char) (cs : Str) (h : sep ∉ cs) :
    splitOnChar sep cs = [cs] := by
  induction cs with
  | nil => rfl
  | cons c rest ih =>
    have hc : ¬c = sep := fun hcs => h (hcs ▸ List.mem_cons_self c rest)
    have hr : sep ∉ rest := fun hm => h (List.mem_cons_of_mem c hm)
    simp [splitOnChar, hc, ih hr]

theorem splitOnChar_cons_self (sep : Char) (ys : Str) :
    splitOnChar sep (sep :: ys) = [] :: splitOnChar sep ys := by
  simp [splitOnChar]

theorem splitOnChar_append (sep : Char) (xs ys : Str) (h : sep ∉ xs) :
    splitOnChar sep (xs ++ sep :: ys) = xs :: splitOnChar sep ys := by
  induction xs with
  | nil => simp [splitOnChar_cons_self]
  | cons x xs' ih =>
    have hx : ¬x = sep := fun hxs => h (hxs ▸ List.mem_cons_self x xs')
    have hr : sep ∉ xs' := fun hm => h (List.mem_cons_of_mem x hm)
    simp [splitOnChar, hx, ih hr]

theorem unquoteChars_no_percent (cs : Str) (h : '%' ∉ cs) :
    unquoteChars cs = cs := by
  simp [unquoteChars, splitOnChar_no_sep '%' cs h]

theorem splitSchemeAux_scheme (sch rest : Str) (h : ∀ c ∈ sch, schemeChar c) :
    splitSchemeAux (sch ++ ':' :: rest) = some rest := by
  induction sch with
  | nil => simp [splitSchemeAux]
  | cons c sch' ih =>
    have hc : schemeChar c := h c (List.mem_cons_self c sch')
    have hcne : ¬c = ':' := by
      intro he
      rw [he] at hc
      exact absurd hc (by decide)
    have hr : ∀ x ∈ sch', schemeChar x := fun x hx => h x (List.mem_cons_of_mem c hx)
    simp [splitSchemeAux, hcne, hc, ih hr]

theorem foldl_entryStep (rows : List Row) (acc : List UrlInfo) :
    rows.foldl entryStep acc = acc ++ rows.filterMap rowEntry := by
  induction rows generalizing acc with
  | nil => simp
  | cons r rest ih =>
    match r with
    | [] => simp [entryStep, rowEntry, ih]
    | [a] => simp [entryStep, rowEntry, ih]
    | a :: b :: t => simp [entryStep, rowEntry, ih]

theorem makeEntries_eq_filterMap (rows : List Row) :
    makeEntries rows = rows.filterMap rowEntry := by
  simpa using foldl_entryStep rows []

theorem processEntries_events (fetch : Str → Except Str Str) (writeOk : Str → Bool)
    (d : ℚ) (out : Str) (l : List UrlInfo) (disk : Disk) :
    (processEntries fetch writeOk d out l disk).1
      = l.flatMap (fun e => [Event.attempt e.wayback_url, Event.sleepFor d]) := by
  induction l generalizing disk with
  | nil => rfl
  | cons e rest ih => simp [processEntries, ih]

theorem processEntries_results (fetch : Str → Except Str Str) (writeOk : Str → Bool)
    (d : ℚ) (out : Str) (l : List UrlInfo) (disk : Disk) :
    (processEntries fetch writeOk d out l disk).2.1.length = l.length := by
  induction l generalizing disk with
  | nil => rfl
  | cons e rest ih => simp [processEntries, ih]

theorem attempts_flatMap (l : List UrlInfo) (d : ℚ) :
    attempts (l.flatMap fun e => [Event.attempt e.wayback_url, Event.sleepFor d])
      = l.map UrlInfo.wayback_url := by
  induction l with
  | nil => rfl
  | cons e rest ih => simp [attempts] at ih ⊢; simp [ih]

theorem sleepsOf_flatMap (l : List UrlInfo) (d : ℚ) :
    sleepsOf d (l.flatMap fun e => [Event.attempt e.wayback_url, Event.sleepFor d])
      = l.length := by
  induction l with
  | nil => rfl
  | cons e rest ih => simp [sleepsOf] at ih ⊢; simp [ih]

theorem applyLimit_nil (limit : Option Int) : applyLimit limit ([] : List α) = [] := by
  cases limit with
  | none => rfl
  | some n =>
    simp only [applyLimit, pySliceTo]
    split <;> simp

theorem runMain_events (fetch : Str → Except Str Str) (writeOk : Str → Bool)
    (d : ℚ) (out : Str) (limit : Option Int) (data : List Row) (disk : Disk) :
    (runMain fetch writeOk d out limit data disk).events
      = (applyLimit limit (makeEntries (skipHeader data))).flatMap
          (fun e => [Event.attempt e.wayback_url, Event.sleepFor d]) := by
  unfold runMain
  by_cases h : makeEntries (skipHeader data) = []
  · simp [h, applyLimit_nil]
  · simp [h, processEntries_events]

theorem split_mkWaybackUrl (ts orig : Str) (hts : '/' ∉ ts) :
    splitOnChar '/' (mkWaybackUrl ts orig)
      = "https:".toList :: [] :: "web.archive.org".toList :: "web".toList
          :: ts :: splitOnChar '/' orig := by
  have hlit : "https://web.archive.org/web/".toList
      = "https:".toList ++ '/' :: '/'
          :: ("web.archive.org".toList ++ '/' :: ("web".toList ++ ['/'])) := by decide
  have hshape : mkWaybackUrl ts orig
      = "https:".toList ++ '/'
          :: ('/' :: ("web.archive.org".toList
              ++ '/' :: ("web".toList ++ '/' :: (ts ++ '/' :: orig)))) := by
    rw [mkWaybackUrl, hlit]
    simp only [List.cons_append, List.append_assoc, List.nil_append,
      List.singleton_append]
  rw [hshape, splitOnChar_append '/' "https:".toList _ (by decide),
    splitOnChar_cons_self,
    splitOnChar_append '/' "web.archive.org".toList _ (by decide),
    splitOnChar_append '/' "web".toList _ (by decide),
    splitOnChar_append '/' ts _ hts]

/-- Sanity check of the embedded stdlib model against CPython behaviour. -/
theorem model_sanity_checks :
    splitOnChar '/' "a//b".toList = ["a".toList, [], "b".toList]
    ∧ urlparsePath "https://example.com/blog/post-1".toList = "/blog/post-1".toList
    ∧ urlparsePath "https:".toList = []
    ∧ urlparsePath "https://example.com/".toList = "/".toList
    ∧ osPathJoin "out".toList "".toList = "out/".toList
    ∧ unquoteChars "a%41%z".toList = "aA%z".toList := by
  refine ⟨by decide, by decide, by decide, by decide, by decide, by decide⟩

/-! ### Claim theorems -/

/-- C1 (evaluation at the failing input): for the entry
`["https://example.com/blog/post-1", "20200101"]` with output root `out` the
code writes `out/blog_post-1/.html` — the subdirectory carries no leading
underscore (the path is `lstrip`ped of `/` before the separators are
replaced) and the filename stem is empty (element 5 of the wayback URL is
the scheme `https:`, whose parsed path is empty) — not the claimed
`out/_blog_post-1/blog_post-1.html`; and for `"https://example.com/"` the
stem is again empty (file `out/.html`), not `index`. -/
theorem c1_actual_written_paths :
    (runMain (fun _ => Except.ok "BODY".toList) (fun _ => true) 1 "out".toList none
        [["https://example.com/blog/post-1".toList, "20200101".toList]]
        ⟨[], []⟩).results
      = [some "out/blog_post-1/.html".toList]
    ∧ (runMain (fun _ => Except.ok "BODY".toList) (fun _ => true) 1 "out".toList none
        [["https://example.com/blog/post-1".toList, "20200101".toList]]
        ⟨[], []⟩).results
      ≠ [some "out/_blog_post-1/blog_post-1.html".toList]
    ∧ (runMain (fun _ => Except.ok "BODY".toList) (fun _ => true) 1 "out".toList none
        [["https://example.com/".toList, "20200101".toList]] ⟨[], []⟩).results
      = [some "out/.html".toList] := by
  refine ⟨by decide, by decide, by decide⟩

/-- C2: for every original URL of the form `scheme://rest` (first character
an ASCII letter, remaining scheme characters in `scheme_chars`) and every
timestamp without `/`, element 5 of the wayback URL split on `/` is the
scheme plus a colon, the derived filename stem is empty, and the written
file inside the per-entry subdirectory is named `.html`, independently of
the original URL's path. -/
theorem c2_scheme_url_yields_empty_stem
    (c : Char) (sch r ts out : Str)
    (hc : c.isAlpha) (hs : ∀ x ∈ sch, schemeChar x) (hts : '/' ∉ ts) :
    (splitOnChar '/'
        (mkWaybackUrl ts ((c :: sch) ++ ':' :: '/' :: '/' :: r))).get? 5
        = some ((c :: sch) ++ [':'])
    ∧ derivedFilename (mkWaybackUrl ts ((c :: sch) ++ ':' :: '/' :: '/' :: r))
        = some []
    ∧ (derivedFilename
          (mkWaybackUrl ts ((c :: sch) ++ ':' :: '/' :: '/' :: r))).map
        (fun f => osPathJoin out (f ++ ".html".toList))
        = some (osPathJoin out ".html".toList) := by
  have hcs : ¬c = '/' := by
    intro he
    rw [he] at hc
    exact absurd hc (by decide)
  have hcp : ¬c = '%' := by
    intro he
    rw [he] at hc
    exact absurd hc (by decide)
  have hseg : '/' ∉ (c :: sch) ++ [':'] := by
    intro hm
    rcases List.mem_append.mp hm with h1 | h1
    · rcases List.mem_cons.mp h1 with h2 | h2
      · exact hcs h2.symm
      · have := hs _ h2
        exact absurd this (by decide)
    · simp at h1
  have hnp : '%' ∉ (c :: sch) ++ [':'] := by
    intro hm
    rcases List.mem_append.mp hm with h1 | h1
    · rcases List.mem_cons.mp h1 with h2 | h2
      · exact hcp h2.symm
      · have := hs _ h2
        exact absurd this (by decide)
    · simp at h1
  have hO : (c :: sch) ++ ':' :: '/' :: '/' :: r
      = ((c :: sch) ++ [':']) ++ '/' :: ('/' :: r) := by
    simp
  have hsplitO : splitOnChar '/' ((c :: sch) ++ ':' :: '/' :: '/' :: r)
      = ((c :: sch) ++ [':']) :: splitOnChar '/' ('/' :: r) := by
    rw [hO, splitOnChar_append '/' _ _ hseg]
  have hget : (splitOnChar '/'
      (mkWaybackUrl ts ((c :: sch) ++ ':' :: '/' :: '/' :: r))).get? 5
      = some ((c :: sch) ++ [':']) := by
    rw [split_mkWaybackUrl _ _ hts, hsplitO]
    rfl
  have huq : unquoteChars ((c :: sch) ++ [':']) = (c :: sch) ++ [':'] :=
    unquoteChars_no_percent _ hnp
  have hsch : splitScheme ((c :: sch) ++ [':']) = [] := by
    have : splitSchemeAux (sch ++ [':']) = some [] :=
      splitSchemeAux_scheme sch [] hs
    simp [splitScheme, hc, this]
  have hpath : urlparsePath ((c :: sch) ++ [':']) = [] := by
    unfold urlparsePath
    rw [hsch]
    rfl
  have hdf : derivedFilename (mkWaybackUrl ts ((c :: sch) ++ ':' :: '/' :: '/' :: r))
      = some [] := by
    unfold derivedFilename
    rw [hget]
    simp only [List.cons_append] at huq hpath
    simp [huq, hpath, stripEdges, replaceChar]
  refine ⟨hget, hdf, ?_⟩
  rw [hdf]
  rfl

/-- Closed instance of `c2_scheme_url_yields_empty_stem` at
`scheme = https`, `rest = example.com/blog/post-1`, timestamp `20200101`. -/
theorem c2_witness :
    (splitOnChar '/'
        (mkWaybackUrl "20200101".toList
          (('h' :: "ttps".toList) ++ ':' :: '/' :: '/' :: "example.com/blog/post-1".toList))).get? 5
        = some (('h' :: "ttps".toList) ++ [':'])
    ∧ derivedFilename
        (mkWaybackUrl "20200101".toList
          (('h' :: "ttps".toList) ++ ':' :: '/' :: '/' :: "example.com/blog/post-1".toList))
        = some []
    ∧ (derivedFilename
          (mkWaybackUrl "20200101".toList
            (('h' :: "ttps".toList) ++ ':' :: '/' :: '/' :: "example.com/blog/post-1".toList))).map
        (fun f => osPathJoin "out".toList (f ++ ".html".toList))
        = some (osPathJoin "out".toList ".html".toList) :=
  c2_scheme_url_yields_empty_stem 'h' "ttps".toList "example.com/blog/post-1".toList
    "20200101".toList "out".toList (by decide) (by decide) (by decide)

/-- C3: a fetch error (transport error, non-2xx, timeout) is caught inside
`download_page`, which returns `none` (first conjunct); a write error is
likewise caught and yields `none` (second conjunct); and for every fetch
oracle the run attempts every limited entry exactly once in order — each
entry is attempted regardless of the outcomes of the previous ones, and no
entry is retried (third conjunct). -/
theorem c3_failure_isolation
    (fetch fetch2 : Str → Except Str Str) (writeOk writeOk2 : Str → Bool)
    (d : ℚ) (out url url2 dir dir2 msg : Str) (limit : Option Int)
    (data : List Row) (disk disk0 disk1 : Disk)
    (hf : fetch url = Except.error msg) (hw : ∀ p, writeOk2 p = false) :
    (download_page fetch writeOk url dir disk0).1 = none
    ∧ (download_page fetch2 writeOk2 url2 dir2 disk1).1 = none
    ∧ attempts (runMain fetch writeOk d out limit data disk).events
        = (applyLimit limit (makeEntries (skipHeader data))).map
            UrlInfo.wayback_url := by
  refine ⟨?_, ?_, ?_⟩
  · unfold download_page
    cases hdf : derivedFilename url with
    | none => rfl
    | some f => simp [hf]
  · unfold download_page
    cases hdf : derivedFilename url2 with
    | none => rfl
    | some f =>
      cases hr : fetch2 url2 with
      | error e => rfl
      | ok text => simp [hw]
  · rw [runMain_events, attempts_flatMap]

/-- Closed instance of `c3_failure_isolation`: an always-failing fetch and an
always-failing write both yield `none`, and a two-entry run under a failing
fetch still attempts both entries. -/
theorem c3_witness :
    (download_page (fun _ => Except.error "err".toList) (fun _ => true)
        "u".toList "d".toList ⟨[], []⟩).1 = none
    ∧ (download_page (fun _ => Except.ok "B".toList) (fun _ => false)
        "u2".toList "d2".toList ⟨[], []⟩).1 = none
    ∧ attempts (runMain (fun _ => Except.error "err".toList) (fun _ => true) 1
        "o".toList none
        [["https://a.example/x".toList, "t1".toList],
         ["https://b.example/y".toList, "t2".toList]] ⟨[], []⟩).events
        = (applyLimit none (makeEntries (skipHeader
            [["https://a.example/x".toList, "t1".toList],
             ["https://b.example/y".toList, "t2".toList]]))).map
            UrlInfo.wayback_url :=
  c3_failure_isolation (fun _ => Except.error "err".toList)
    (fun _ => Except.ok "B".toList) (fun _ => true) (fun _ => false) 1
    "o".toList "u".toList "u2".toList "d".toList "d2".toList "err".toList none
    [["https://a.example/x".toList, "t1".toList],
     ["https://b.example/y".toList, "t2".toList]]
    ⟨[], []⟩ ⟨[], []⟩ ⟨[], []⟩ rfl (fun _ => rfl)

/-- C4: a first row equal to the literal header triple is excluded from the
loaded entry sequence; any other first row is retained (the remaining rows
still pass through the two-field filter of `makeEntries`). -/
theorem c4_header_skip (r : Row) (rest : List Row) :
    (r = headerRow → makeEntries (skipHeader (r :: rest)) = makeEntries rest)
    ∧ (r ≠ headerRow
        → makeEntries (skipHeader (r :: rest)) = makeEntries (r :: rest)) := by
  constructor <;> intro h <;> simp [skipHeader, h]

/-- Closed instance of `c4_header_skip` for a header first row and for a
non-header first row. -/
theorem c4_witness :
    makeEntries (skipHeader [headerRow]) = makeEntries []
    ∧ makeEntries (skipHeader [["x".toList, "y".toList]])
        = makeEntries [["x".toList, "y".toList]] :=
  ⟨(c4_header_skip headerRow []).1 rfl,
   (c4_header_skip ["x".toList, "y".toList] []).2 (by decide)⟩

/-- C5: the loaded entries are exactly the per-row `rowEntry` results in
input order; a row with fewer than two fields contributes nothing, and a
row with at least two fields contributes exactly one `UrlInfo` with field 0
as the original URL and field 1 as the timestamp of the wayback URL. -/
theorem c5_entry_filtering (rows : List Row) :
    makeEntries rows = rows.filterMap rowEntry
    ∧ (∀ r : Row, r.length < 2 → rowEntry r = none)
    ∧ (∀ (a b : Str) (t : List Str),
        rowEntry (a :: b :: t) = some ⟨a, mkWaybackUrl b a⟩) := by
  refine ⟨makeEntries_eq_filterMap rows, ?_, fun a b t => rfl⟩
  intro r hr
  match r with
  | [] => rfl
  | [a] => rfl
  | a :: b :: t => simp at hr; omega

/-- Closed instance of `c5_entry_filtering`: a two-field row yields its
entry, a one-field row yields none, and order is preserved. -/
theorem c5_witness :
    makeEntries [["u".toList, "t".toList], ["v".toList], ["w".toList, "s".toList]]
      = [⟨"u".toList, mkWaybackUrl "t".toList "u".toList⟩,
         ⟨"w".toList, mkWaybackUrl "s".toList "w".toList⟩]
    ∧ rowEntry ["v".toList] = none := by
  constructor
  · rw [(c5_entry_filtering
      [["u".toList, "t".toList], ["v".toList], ["w".toList, "s".toList]]).1]
    rfl
  · exact (c5_entry_filtering []).2.1 ["v".toList] (by decide)

/-- C6 counterexample: with one valid entry and `--limit 0`, the limit
`0` is less than the entry count yet the run attempts the entry instead of
processing the first zero entries, because `if args.limit and ...` treats
`0` as falsy. -/
theorem c6_counterexample :
    (0 : Int) < ((makeEntries (skipHeader [["u".toList, "t".toList]])).length : Int)
    ∧ attempts (runMain (fun _ => Except.error "e".toList) (fun _ => true) 1
        "out".toList (some 0) [["u".toList, "t".toList]] ⟨[], []⟩).events
      ≠ [] := by
  refine ⟨by decide, by decide⟩

/-- C6 (amended): for every limit `N` with `1 ≤ N` less than the number of
valid entries, the run attempts exactly the first `N` entries in input
order. -/
theorem c6_limit_truncation
    (fetch : Str → Except Str Str) (writeOk : Str → Bool) (d : ℚ)
    (out : Str) (data : List Row) (disk : Disk) (n : Int)
    (h1 : 1 ≤ n) (h2 : n < ((makeEntries (skipHeader data)).length : Int)) :
    attempts (runMain fetch writeOk d out (some n) data disk).events
      = ((makeEntries (skipHeader data)).take n.toNat).map UrlInfo.wayback_url := by
  rw [runMain_events, attempts_flatMap]
  congr 1
  have hne : n ≠ 0 := by omega
  have hpos : (0 : Int) ≤ n := by omega
  simp [applyLimit, hne, h2, pySliceTo, hpos]

/-- Closed instance of `c6_limit_truncation`: `--limit 1` over two valid
entries attempts exactly the first. -/
theorem c6_witness :
    attempts (runMain (fun _ => Except.ok "B".toList) (fun _ => true) 1
        "o".toList (some 1)
        [["u".toList, "t".toList], ["v".toList, "s".toList]] ⟨[], []⟩).events
      = [mkWaybackUrl "t".toList "u".toList] := by
  rw [c6_limit_truncation (fun _ => Except.ok "B".toList) (fun _ => true) 1
    "o".toList [["u".toList, "t".toList], ["v".toList, "s".toList]] ⟨[], []⟩ 1
    (by decide) (by decide)]
  rfl

/-- C7: a limit given as `0` is falsy in `if args.limit and ...`, so no
truncation is applied: the run is identical to one with no limit, and every
valid entry is attempted. -/
theorem c7_limit_zero_is_unset
    (fetch : Str → Except Str Str) (writeOk : Str → Bool) (d : ℚ)
    (out : Str) (data : List Row) (disk : Disk) :
    runMain fetch writeOk d out (some 0) data disk
      = runMain fetch writeOk d out none data disk
    ∧ attempts (runMain fetch writeOk d out (some 0) data disk).events
      = (makeEntries (skipHeader data)).map UrlInfo.wayback_url := by
  have hal : applyLimit (some 0) (makeEntries (skipHeader data))
      = makeEntries (skipHeader data) := by
    simp [applyLimit]
  constructor
  · by_cases h : makeEntries (skipHeader data) = [] <;>
      simp [runMain, h, applyLimit]
  · rw [runMain_events, attempts_flatMap, hal]

/-- C8: when zero valid entries result (empty array, only the header row, or
rows all shorter than two fields), the run reports the fatal "no valid URLs"
error and terminates with no events — no `download_page` call, hence no
network call — and the disk untouched. -/
theorem c8_zero_entries_fatal
    (fetch : Str → Except Str Str) (writeOk : Str → Bool) (d : ℚ)
    (out : Str) (limit : Option Int) (data : List Row) (disk : Disk)
    (h : makeEntries (skipHeader data) = []) :
    runMain fetch writeOk d out limit data disk = ⟨true, [], [], disk⟩ := by
  simp [runMain, h]

/-- Closed instances of `c8_zero_entries_fatal`: the empty input array and
the header-only input array both terminate fatally with no events. -/
theorem c8_witness :
    runMain (fun _ => Except.ok "B".toList) (fun _ => true) 1 "o".toList none
        [] ⟨[], []⟩ = ⟨true, [], [], ⟨[], []⟩⟩
    ∧ runMain (fun _ => Except.ok "B".toList) (fun _ => true) 1 "o".toList none
        [headerRow] ⟨[], []⟩ = ⟨true, [], [], ⟨[], []⟩⟩ :=
  ⟨c8_zero_entries_fatal (fun _ => Except.ok "B".toList) (fun _ => true) 1
      "o".toList none [] ⟨[], []⟩ (by decide),
   c8_zero_entries_fatal (fun _ => Except.ok "B".toList) (fun _ => true) 1
      "o".toList none [headerRow] ⟨[], []⟩ (by decide)⟩

/-- C9: the run's event trace is one `attempt` followed by one sleep of the
configured delay for each processed entry, so the number of sleeps of the
configured duration equals (hence is at least) the number of processed
entries, success or failure alike. -/
theorem c9_sleep_after_each_entry
    (fetch : Str → Except Str Str) (writeOk : Str → Bool) (d : ℚ)
    (out : Str) (limit : Option Int) (data : List Row) (disk : Disk) :
    (runMain fetch writeOk d out limit data disk).events
      = (applyLimit limit (makeEntries (skipHeader data))).flatMap
          (fun e => [Event.attempt e.wayback_url, Event.sleepFor d])
    ∧ sleepsOf d (runMain fetch writeOk d out limit data disk).events
      = (applyLimit limit (makeEntries (skipHeader data))).length := by
  refine ⟨runMain_events fetch writeOk d out limit data disk, ?_⟩
  rw [runMain_events, sleepsOf_flatMap]

/-- C10 counterexample: a single entry whose fetch fails (result `none`)
still changes the on-disk state — its output subdirectory has been created
by `os.makedirs` before the fetch — so the on-disk state for a failed entry
is not unchanged. -/
theorem c10_counterexample :
    (runMain (fun _ => Except.error "timeout".toList) (fun _ => true) 1
        "out".toList none
        [["https://example.com/blog/post-1".toList, "20200101".toList]]
        ⟨[], []⟩).results = [none]
    ∧ (runMain (fun _ => Except.error "timeout".toList) (fun _ => true) 1
        "out".toList none
        [["https://example.com/blog/post-1".toList, "20200101".toList]]
        ⟨[], []⟩).disk ≠ (⟨[], []⟩ : Disk) := by
  refine ⟨by decide, by decide⟩

/-- C10 (amended): for an entry whose fetch fails, no file is written — the
file is only opened after a successful response, so the file map is
unchanged — but the entry's output directory has already been created, so
the on-disk state is the original one plus that directory. -/
theorem c10_fetch_failure_leaves_dir_only
    (fetch : Str → Except Str Str) (writeOk : Str → Bool)
    (url dir msg : Str) (disk : Disk) (hf : fetch url = Except.error msg) :
    (download_page fetch writeOk url dir disk).1 = none
    ∧ (download_page fetch writeOk url dir disk).2.files = disk.files
    ∧ (download_page fetch writeOk url dir disk).2.dirs
        = insertDir dir disk.dirs := by
  unfold download_page
  cases hdf : derivedFilename url with
  | none => exact ⟨rfl, rfl, rfl⟩
  | some f => simp [hf]

/-- Closed instance of `c10_fetch_failure_leaves_dir_only` at a concrete
failing fetch. -/
theorem c10_witness :
    (download_page (fun _ => Except.error "e".toList) (fun _ => true)
        "u".toList "d".toList ⟨[], []⟩).1 = none
    ∧ (download_page (fun _ => Except.error "e".toList) (fun _ => true)
        "u".toList "d".toList ⟨[], []⟩).2.files = ([] : List (Str × Str))
    ∧ (download_page (fun _ => Except.error "e".toList) (fun _ => true)
        "u".toList "d".toList ⟨[], []⟩).2.dirs = insertDir "d".toList [] :=
  c10_fetch_failure_leaves_dir_only (fun _ => Except.error "e".toList)
    (fun _ => true) "u".toList "d".toList "e".toList ⟨[], []⟩ rfl
